import Mathlib

set_option maxHeartbeats 1000000
set_option maxRecDepth 4000

/- Batteries marks rational arithmetic irreducible, which stops concrete
evaluation by decide; restore the default reducibility for this file. -/
set_option allowUnsafeReducibility true
attribute [local semireducible] Rat.mul Rat.add Rat.sub Rat.div Rat.neg Rat.inv

/-!
Shallow embedding of the PLY spatial-crop tool (src/crop_ply_spatial.py).

A file is modeled as the list of its ASCII header lines together with the
binary body that follows the terminator line.  The binary body is a list of
cells: integer-typed fields are raw bytes, while an IEEE float32/float64
buffer is modeled as one value-carrying head cell followed by pad cells, so
that every byte-offset computation of the source (stride, seeks, truncated
reads) is reproduced exactly; only the interior bit pattern of an IEEE
buffer is abstracted by the real value it denotes.  Numeric values are
rationals; all numeric operations performed by the source on coordinates
are comparisons, min/max and exact ring operations, which agree with IEEE
semantics on the represented values.  The one place where bit-level float
behaviour matters - struct.pack of a float field rounds its argument to
binary32 - is modeled explicitly by roundF32 and the refined encoder
structPackF32.
-/

namespace CropPly

/-- One cell of a binary body. -/
inductive Cell where
  | byte (b : Nat)
  | f32 (q : ℚ)
  | f64 (q : ℚ)
  | pad
deriving DecidableEq

/-- A value produced by struct.unpack: Python float or Python int. -/
inductive PValue where
  | pfloat (q : ℚ)
  | pint (n : Int)
deriving DecidableEq

/-- A PLY file: raw text lines (as readline would yield them, without the
trailing newline) and the binary body following the terminator. -/
structure PLYFile where
  lines : List String
  body : List Cell
deriving DecidableEq

/-- Python whitespace test used by str.strip and str.split. -/
def pyWs (c : Char) : Bool :=
  c = ' ' || c = '\t' || c = '\n' || c = '\r' || c = '\x0b' || c = '\x0c'

/-- Python str.strip. -/
def pystrip (s : String) : String :=
  String.mk (((s.toList.dropWhile pyWs).reverse.dropWhile pyWs).reverse)

/-- Python str.startswith. -/
def pystartswith (s pre : String) : Bool :=
  pre.toList.isPrefixOf s.toList

def pysplitGo : List Char → List Char → List String
  | [], cur => if cur.isEmpty then [] else [String.mk cur.reverse]
  | c :: cs, cur =>
    if pyWs c then
      if cur.isEmpty then pysplitGo cs [] else String.mk cur.reverse :: pysplitGo cs []
    else pysplitGo cs (c :: cur)

/-- Python str.split() with no separator: split on whitespace runs. -/
def pysplit (s : String) : List String := pysplitGo s.toList []

/-- Python int() on a plain digit string (the only shape the headers use). -/
def parseNat (s : String) : Option Nat :=
  let cs := s.toList
  if cs.isEmpty || cs.any (fun c => !c.isDigit) then none
  else some (cs.foldl (fun a c => a * 10 + (c.toNat - 48)) 0)

/-- The readline loop of read_ply_header, with explicit fuel.  At end of
file Python readline returns the empty byte string, so a file whose headers
never contain the terminator makes the loop run forever; the fueled loop
returns none for every fuel in that case. -/
def readHeaderLoop (lines : List String) : Nat → Nat → List String → Option (List String)
  | 0, _, _ => none
  | fuel + 1, i, acc =>
    let line := pystrip (lines.getD i "")
    let acc2 := acc ++ [line]
    if line = "end_header" then some acc2
    else readHeaderLoop lines fuel (i + 1) acc2

/-- read_ply_header: collect stripped lines through the terminator.  The
fuel (number of lines plus one) suffices exactly when some line is the
terminator; none therefore marks the diverging run of the source loop. -/
def read_ply_header (file : PLYFile) : Option (List String) :=
  readHeaderLoop file.lines (file.lines.length + 1) 0 []

/-- One step of the parse_ply_header scan. -/
def parse_ply_line (st : Nat × List (String × String) × Option String) (line : String) :
    Nat × List (String × String) × Option String :=
  if pystartswith line "format" then
    (st.1, st.2.1, some ((pysplit line).getD 1 ""))
  else if pystartswith line "element vertex" then
    ((parseNat ((pysplit line).getD 2 "")).getD 0, st.2.1, st.2.2)
  else if pystartswith line "property" then
    (st.1, st.2.1 ++ [((pysplit line).getD 1 "", (pysplit line).getD 2 "")], st.2.2)
  else st

/-- parse_ply_header: extract vertex count, properties and format type. -/
def parse_ply_header (header_lines : List String) :
    Nat × List (String × String) × Option String :=
  header_lines.foldl parse_ply_line (0, [], none)

/-- Format character appended for one property type; empty for an
unrecognized type tag (the source has no else branch). -/
def typeChar (prop_type : String) : String :=
  if prop_type = "float" then "f"
  else if prop_type = "uchar" then "B"
  else if prop_type = "int" then "i"
  else if prop_type = "double" then "d"
  else ""

/-- create_struct_format: little-endian prefix then one character per
recognized property. -/
def create_struct_format (properties : List (String × String)) : String :=
  properties.foldl (fun s p => s ++ typeChar p.1) "<"

/-- Byte width of one struct format character. -/
def charWidth (c : Char) : Nat :=
  if c = 'f' then 4 else if c = 'B' then 1 else if c = 'i' then 4
  else if c = 'd' then 8 else 0

/-- struct.calcsize. -/
def structCalcsize (s : String) : Nat :=
  ((s.toList.filter (fun c => c ≠ '<')).map charWidth).sum

/-- Two's complement decoding of four little-endian bytes as int32. -/
def int32OfBytes (b0 b1 b2 b3 : Nat) : Int :=
  let m := b0 + 256 * b1 + 65536 * b2 + 16777216 * b3
  if m < 2147483648 then (m : Int) else (m : Int) - 4294967296

/-- Two's complement encoding of an int32 as four little-endian bytes. -/
def int32Bytes (n : Int) : List Cell :=
  let m := (n % 4294967296).toNat
  [.byte (m % 256), .byte (m / 256 % 256), .byte (m / 65536 % 256), .byte (m / 16777216 % 256)]

/-- Decode one field according to its format character. -/
def unpackOne : Char → List Cell → Option (PValue × List Cell)
  | 'f', .f32 q :: .pad :: .pad :: .pad :: rest => some (.pfloat q, rest)
  | 'B', .byte b :: rest => some (.pint b, rest)
  | 'i', .byte b0 :: .byte b1 :: .byte b2 :: .byte b3 :: rest =>
      some (.pint (int32OfBytes b0 b1 b2 b3), rest)
  | 'd', .f64 q :: .pad :: .pad :: .pad :: .pad :: .pad :: .pad :: .pad :: rest =>
      some (.pfloat q, rest)
  | _, _ => none

def unpackGo : List Char → List Cell → Option (List PValue)
  | [], cells => if cells.isEmpty then some [] else none
  | c :: cs, cells =>
    match unpackOne c cells with
    | none => none
    | some (v, rest) => (unpackGo cs rest).map (fun vs => v :: vs)

/-- struct.unpack over a format string (strict about consuming the whole
buffer, as struct.unpack is about its length). -/
def structUnpack (s : String) (cells : List Cell) : Option (List PValue) :=
  unpackGo (s.toList.filter (fun c => c ≠ '<')) cells

/-- Encode one value according to its format character; integer fields are
byte-exact, with the range checks where struct.pack raises.  The float and
double cases store the carried value unchanged: for a double field this is
what struct.pack does, and for a float field it is exact precisely when the
value was itself decoded from a float32 buffer, as every value reaching the
writer of the streaming pipeline was; packOneF32 below refines the float
case with the binary32 rounding struct.pack performs on arbitrary values. -/
def packOne : Char → PValue → Option (List Cell)
  | 'f', .pfloat q => some [.f32 q, .pad, .pad, .pad]
  | 'B', .pint n => if 0 ≤ n ∧ n < 256 then some [.byte n.toNat] else none
  | 'i', .pint n =>
      if -2147483648 ≤ n ∧ n < 2147483648 then some (int32Bytes n) else none
  | 'd', .pfloat q => some [.f64 q, .pad, .pad, .pad, .pad, .pad, .pad, .pad]
  | _, _ => none

def packGo : List Char → List PValue → Option (List Cell)
  | [], vals => if vals.isEmpty then some [] else none
  | c :: cs, vals =>
    match vals with
    | [] => none
    | v :: vs =>
      match packOne c v with
      | none => none
      | some cellsc => (packGo cs vs).map (fun rest => cellsc ++ rest)

/-- struct.pack over a format string (strict about arity, as struct.pack is). -/
def structPack (s : String) (vals : List PValue) : Option (List Cell) :=
  packGo (s.toList.filter (fun c => c ≠ '<')) vals

/-- Python int() truncation toward zero of a rational. -/
def ratInt (q : ℚ) : Int := q.num.tdiv q.den

/-- The numpy coercion of an unpacked value to float64. -/
def pvFloat : PValue → ℚ
  | .pfloat q => q
  | .pint n => (n : ℚ)

/-- Per-field conversion applied by write_ply_file before packing. -/
def convertVal (prop_type : String) (x : ℚ) : PValue :=
  if prop_type = "float" then .pfloat x
  else if prop_type = "uchar" then .pint (ratInt x % 256)
  else if prop_type = "int" then .pint (ratInt x)
  else if prop_type = "double" then .pfloat x
  else .pfloat x

/-- The converted_vertex loop of write_ply_file (vertex[i] per property). -/
def convertVertex : List (String × String) → List ℚ → List PValue
  | [], _ => []
  | p :: ps, xs => convertVal p.1 (xs.headD 0) :: convertVertex ps xs.tail

/-- Python range(0, stop, step) for positive step. -/
def pyRange (stop step : Nat) : List Nat :=
  List.range' 0 ((stop + step - 1) / step) step

/-- The sampling loop of analyze_point_cloud_bounds: seek to each index,
read one record, break once the sample is full or a read comes back short;
none models an unpack exception (unreachable on well-formed bodies). -/
def collectSample (body : List Cell) (vsize : Nat) (fstr : String) (S : Nat) :
    List Nat → List (List PValue) → Option (List (List PValue))
  | [], acc => some acc
  | i :: rest, acc =>
    if S ≤ acc.length then some acc
    else
      let data := (body.drop (i * vsize)).take vsize
      if data.length = vsize then
        match structUnpack fstr data with
        | none => none
        | some v => collectSample body vsize fstr S rest (acc ++ [v])
      else some acc

/-- Spatial analysis summary returned by analyze_point_cloud_bounds. -/
structure BoundsInfo where
  min_bounds : ℚ × ℚ × ℚ
  max_bounds : ℚ × ℚ × ℚ
  center : ℚ × ℚ × ℚ
  ranges : ℚ × ℚ × ℚ
  vertex_count : Nat
  properties : List (String × String)
deriving DecidableEq

/-- Result of analyze_point_cloud_bounds.  noVertices is the printed
"Error: No vertices read" / return None path; exn models an uncaught Python
exception (ZeroDivisionError for a zero sample size, or an IndexError when
fewer than three columns are sampled); hang models the diverging readline
loop on a header without terminator. -/
inductive AnalyzeResult where
  | ok (info : BoundsInfo)
  | noVertices
  | exn
  | hang
deriving DecidableEq

/-- Column minimum over sampled rows (np.min along axis 0). -/
def colMin (rows : List (List ℚ)) (j : Nat) : ℚ :=
  let vals := rows.map (fun r => r.getD j 0)
  vals.foldl min (vals.headD 0)

/-- Column maximum over sampled rows (np.max along axis 0). -/
def colMax (rows : List (List ℚ)) (j : Nat) : ℚ :=
  let vals := rows.map (fun r => r.getD j 0)
  vals.foldl max (vals.headD 0)

/-- analyze_point_cloud_bounds. -/
def analyze_point_cloud_bounds (file : PLYFile) (sample_size : Nat) : AnalyzeResult :=
  match read_ply_header file with
  | none => .hang
  | some header_lines =>
    let parsed := parse_ply_header header_lines
    let vertex_count := parsed.1
    let properties := parsed.2.1
    let format_str := create_struct_format properties
    let vertex_size := structCalcsize format_str
    let actual_sample_size := min sample_size vertex_count
    if actual_sample_size = 0 then .exn
    else
      let step := max 1 (vertex_count / actual_sample_size)
      match collectSample file.body vertex_size format_str actual_sample_size
          (pyRange vertex_count step) [] with
      | none => .exn
      | some vertices =>
        if vertices.isEmpty then .noVertices
        else if vertices.any (fun r => r.length < 3) then .exn
        else
          let rows := vertices.map (fun r => r.map pvFloat)
          let mn : ℚ × ℚ × ℚ := (colMin rows 0, colMin rows 1, colMin rows 2)
          let mx : ℚ × ℚ × ℚ := (colMax rows 0, colMax rows 1, colMax rows 2)
          .ok { min_bounds := mn, max_bounds := mx,
                center := ((mn.1 + mx.1) / 2, (mn.2.1 + mx.2.1) / 2, (mn.2.2 + mx.2.2) / 2),
                ranges := (mx.1 - mn.1, mx.2.1 - mn.2.1, mx.2.2 - mn.2.2),
                vertex_count := vertex_count, properties := properties }

/-- The inner per-chunk read loop of crop_by_bounds: sequential reads of one
record each, breaking on a short read (which consumes the short data, as
f.read does). -/
def readChunkRecs (body : List Cell) (vsize : Nat) (fstr : String) :
    Nat → Nat → Option (List (List PValue) × Nat)
  | pos, 0 => some ([], pos)
  | pos, n + 1 =>
    let data := (body.drop pos).take vsize
    if data.length = vsize then
      match structUnpack fstr data with
      | none => none
      | some v =>
        match readChunkRecs body vsize fstr (pos + vsize) n with
        | none => none
        | some (vs, p) => some (v :: vs, p)
    else some ([], pos + data.length)

/-- Result of one crop invocation.  emptyResult and analyzeFailed are the
two return-False paths (no output written); exn is an uncaught exception;
hang is the diverging header loop; success carries the written file and the
reported original and cropped counts. -/
inductive CropResult where
  | success (out : PLYFile) (orig : Nat) (kept : Nat)
  | emptyResult
  | analyzeFailed
  | exn
  | hang
deriving DecidableEq

/-- The per-record mask of the streaming filter: inclusive on both ends of
all three ranges, in the source's evaluation order. -/
def inBounds (xr yr zr : ℚ × ℚ) (r : List ℚ) : Bool :=
  decide (xr.1 ≤ r.getD 0 0) && decide (r.getD 0 0 ≤ xr.2) &&
  decide (yr.1 ≤ r.getD 1 0) && decide (r.getD 1 0 ≤ yr.2) &&
  decide (zr.1 ≤ r.getD 2 0) && decide (r.getD 2 0 ≤ zr.2)

/-- The chunked filtering loop of crop_by_bounds over the chunk starts of
range(0, vertex_count, chunk_size), carrying the read cursor and the
accumulated retained rows. -/
def cropChunksGo (body : List Cell) (vsize : Nat) (fstr : String)
    (xr yr zr : ℚ × ℚ) (vertex_count : Nat) :
    List Nat → Nat → List (List ℚ) → Option (List (List ℚ))
  | [], _, acc => some acc
  | cs :: rest, pos, acc =>
    let chunk_count := min (cs + 50000) vertex_count - cs
    match readChunkRecs body vsize fstr pos chunk_count with
    | none => none
    | some (recs, pos2) =>
      if recs.isEmpty then some acc
      else if recs.any (fun r => r.length < 3) then none
      else
        let recsF := recs.map (fun r => r.map pvFloat)
        let kept := recsF.filter (fun r => inBounds xr yr zr r)
        cropChunksGo body vsize fstr xr yr zr vertex_count rest pos2 (acc ++ kept)

/-- Round-half-even used to render a rational with three decimals. -/
def rhe (x : ℚ) : Int :=
  let f := x.floor
  let r := x - f
  if r < 1 / 2 then f else if 1 / 2 < r then f + 1 else if f % 2 = 0 then f else f + 1

def pad3 (n : Nat) : String :=
  if n < 10 then "00" ++ toString n else if n < 100 then "0" ++ toString n else toString n

/-- Fixed-point rendering with three decimals, as the f-string format .3f. -/
def fmt3 (q : ℚ) : String :=
  let m := rhe (q * 1000)
  let sgn := if m < 0 then "-" else ""
  let a := m.natAbs
  sgn ++ toString (a / 1000) ++ "." ++ pad3 (a % 1000)

/-- The provenance comments crop_by_bounds passes to write_ply_file. -/
def cropComments (input_path : String) (xr yr zr : ℚ × ℚ) (orig kept : Nat) : List String :=
  ["Spatially cropped from " ++ input_path,
   "X range: [" ++ fmt3 xr.1 ++ ", " ++ fmt3 xr.2 ++ "]",
   "Y range: [" ++ fmt3 yr.1 ++ ", " ++ fmt3 yr.2 ++ "]",
   "Z range: [" ++ fmt3 zr.1 ++ ", " ++ fmt3 zr.2 ++ "]",
   "Original: " ++ toString orig ++ ", Cropped: " ++ toString kept]

/-- write_ply_file: header lines then each retained record converted,
packed and written in order; none models a struct.pack exception. -/
def write_ply_file (vertices : List (List ℚ)) (properties : List (String × String))
    (comments : List String) : Option PLYFile :=
  let format_str := create_struct_format properties
  match vertices.mapM (fun v => structPack format_str (convertVertex properties v)) with
  | none => none
  | some bufs =>
    some { lines :=
            ["ply", "format binary_little_endian 1.0"] ++
            comments.map (fun c => "comment " ++ c) ++
            ["element vertex " ++ toString vertices.length] ++
            properties.map (fun p => "property " ++ p.1 ++ " " ++ p.2) ++
            ["end_header"],
           body := bufs.flatten }

/-- crop_by_bounds.  The input path parameter only feeds the provenance
comment, as in the source; the output file is returned instead of written. -/
def crop_by_bounds (input_path : String) (file : PLYFile)
    (x_range y_range z_range : Option (ℚ × ℚ))
    (center_crop_ratio : Option ℚ) (interactive : Bool) : CropResult :=
  match analyze_point_cloud_bounds file 10000 with
  | .hang => .hang
  | .exn => .exn
  | .noVertices => .analyzeFailed
  | .ok info =>
    let ranges3 : (ℚ × ℚ) × (ℚ × ℚ) × (ℚ × ℚ) :=
      match center_crop_ratio with
      | some ratio =>
        let c := info.center
        let rg := info.ranges
        ((c.1 - rg.1 * ratio / 2, c.1 + rg.1 * ratio / 2),
         (c.2.1 - rg.2.1 * ratio / 2, c.2.1 + rg.2.1 * ratio / 2),
         (c.2.2 - rg.2.2 * ratio / 2, c.2.2 + rg.2.2 * ratio / 2))
      | none =>
        if interactive then
          let mn := info.min_bounds
          let mx := info.max_bounds
          ((mn.1 + (mx.1 - mn.1) * (1 / 10), mx.1 - (mx.1 - mn.1) * (1 / 10)),
           (mn.2.1 + (mx.2.1 - mn.2.1) * (1 / 10), mx.2.1 - (mx.2.1 - mn.2.1) * (1 / 10)),
           (mn.2.2 + (mx.2.2 - mn.2.2) * (1 / 10), mx.2.2 - (mx.2.2 - mn.2.2) * (1 / 10)))
        else
          (x_range.getD (info.min_bounds.1, info.max_bounds.1),
           y_range.getD (info.min_bounds.2.1, info.max_bounds.2.1),
           z_range.getD (info.min_bounds.2.2, info.max_bounds.2.2))
    let xr := ranges3.1
    let yr := ranges3.2.1
    let zr := ranges3.2.2
    match read_ply_header file with
    | none => .hang
    | some header_lines =>
      let parsed := parse_ply_header header_lines
      let vertex_count := parsed.1
      let properties := parsed.2.1
      let format_str := create_struct_format properties
      let vertex_size := structCalcsize format_str
      match cropChunksGo file.body vertex_size format_str xr yr zr vertex_count
          (pyRange vertex_count 50000) 0 [] with
      | none => .exn
      | some cropped_vertices =>
        if cropped_vertices.isEmpty then .emptyResult
        else
          match write_ply_file cropped_vertices properties
              (cropComments input_path xr yr zr vertex_count cropped_vertices.length) with
          | none => .exn
          | some out => .success out vertex_count cropped_vertices.length

/-! ### Helper notions used to state the theorems

A well-formed input body is described as the concatenation of canonical
per-record cell buffers; these helpers are only a vocabulary for the
hypotheses and conclusions, the functions under verification are the ones
above. -/

/-- The format characters contributed by a property list, one recognized
property at a time. -/
def fmtChars : List (String × String) → List Char
  | [] => []
  | p :: ps => (typeChar p.1).toList ++ fmtChars ps

/-- Record stride: total byte width of the recognized fields. -/
def strideOf (ps : List (String × String)) : Nat :=
  ((fmtChars ps).map charWidth).sum

def isPFloat : PValue → Bool
  | .pfloat _ => true
  | .pint _ => false

/-- Typing of one value against one property tag: floats for float and
double fields, and integers in the representable range for uchar and int
fields, exactly the shapes struct.unpack can produce. -/
def wfValue (t : String) (v : PValue) : Bool :=
  if t = "float" then isPFloat v
  else if t = "uchar" then
    match v with
    | .pint n => decide (0 ≤ n) && decide (n < 256)
    | .pfloat _ => false
  else if t = "int" then
    match v with
    | .pint n => decide (-2147483648 ≤ n) && decide (n < 2147483648)
    | .pfloat _ => false
  else if t = "double" then isPFloat v
  else false

/-- A record typed against a property list, field by field. -/
def wfRecord : List (String × String) → List PValue → Bool
  | [], [] => true
  | p :: ps, v :: vs => wfValue p.1 v && wfRecord ps vs
  | _, _ => false

/-- Canonical cell buffer of one well-typed field value. -/
def fieldCells (t : String) (v : PValue) : List Cell :=
  if t = "float" then
    match v with
    | .pfloat q => [.f32 q, .pad, .pad, .pad]
    | .pint _ => []
  else if t = "uchar" then
    match v with
    | .pint n => [.byte n.toNat]
    | .pfloat _ => []
  else if t = "int" then
    match v with
    | .pint n => int32Bytes n
    | .pfloat _ => []
  else if t = "double" then
    match v with
    | .pfloat q => [.f64 q, .pad, .pad, .pad, .pad, .pad, .pad, .pad]
    | .pint _ => []
  else []

/-- Canonical cell buffer of one well-typed record. -/
def recordCells : List (String × String) → List PValue → List Cell
  | [], _ => []
  | _ :: _, [] => []
  | p :: ps, v :: vs => fieldCells p.1 v ++ recordCells ps vs

/-! ### Binary32 rounding refinement of the float encoder

struct.pack of a float field rounds its argument to IEEE-754 binary32
(nearest, ties to even) and raises OverflowError past the finite range;
the value-level packOne above omits that rounding, which is exact whenever
the packed value was itself decoded from a float32 buffer - the case of
the streaming pipeline - but not for arbitrary values.  The refined
encoder below performs the rounding, over exact rational arithmetic. -/

/-- Bit length of a natural number, computed with explicit fuel so that it
reduces by kernel evaluation. -/
def bitlenF : Nat → Nat → Nat
  | 0, _ => 0
  | fuel + 1, n => if n = 0 then 0 else bitlenF fuel (n / 2) + 1

def bitlen (n : Nat) : Nat := bitlenF n n

/-- Whether 2 to the power e is at most n / d, by exact comparison. -/
def pow2le (e : Int) (n d : Nat) : Bool :=
  match e with
  | .ofNat k => decide (2 ^ k * d ≤ n)
  | .negSucc k => decide (d ≤ 2 ^ (k + 1) * n)

/-- Floor of the base-two logarithm of the positive rational n / d. -/
def qlog2 (n d : Nat) : Int :=
  let c : Int := (bitlen n : Int) - (bitlen d : Int)
  if pow2le c n d then c else c - 1

/-- Round x / y to the nearest integer, ties to even. -/
def roundHalfEvenNat (x y : Nat) : Nat :=
  let q := x / y
  let r := x % y
  if 2 * r < y then q
  else if y < 2 * r then q + 1
  else if q % 2 = 0 then q else q + 1

/-- Round n / d to the nearest multiple of 2 to the power t, ties to even,
returned as the multiplier. -/
def roundAtPow2 (n d : Nat) : Int → Nat
  | .ofNat k => roundHalfEvenNat n (d * 2 ^ k)
  | .negSucc k => roundHalfEvenNat (n * 2 ^ (k + 1)) d

/-- The rational m times 2 to the power t. -/
def scalePow2 (m : Nat) : Int → ℚ
  | .ofNat k => ((m * 2 ^ k : Nat) : ℚ)
  | .negSucc k => mkRat m (2 ^ (k + 1))

/-- Round a rational to the IEEE-754 binary32 grid (nearest, ties to even):
normal values are rounded to 24 significant bits, values below the normal
range to the subnormal grid of spacing 2 to the power -149.  The result can
exceed the largest finite float32; the encoder checks that separately. -/
def roundF32 (q : ℚ) : ℚ :=
  if q = 0 then 0
  else
    let n := q.num.natAbs
    let d := q.den
    let e := qlog2 n d
    let t : Int := if e < -126 then -149 else e - 23
    let m := roundAtPow2 n d t
    let a := scalePow2 m t
    if q < 0 then -a else a

/-- The largest finite binary32 value, (2^24 - 1) * 2^104. -/
def maxF32 : ℚ := ((16777215 * 2 ^ 104 : Nat) : ℚ)

/-- packOne with the float case refined to the binary32 rounding performed
by struct.pack, failing past the finite range as struct.pack raises
OverflowError there; all other format characters are unchanged. -/
def packOneF32 : Char → PValue → Option (List Cell)
  | 'f', .pfloat q =>
    let r := roundF32 q
    if -maxF32 ≤ r ∧ r ≤ maxF32 then some [.f32 r, .pad, .pad, .pad] else none
  | c, v => packOne c v

def packGoF32 : List Char → List PValue → Option (List Cell)
  | [], vals => if vals.isEmpty then some [] else none
  | c :: cs, vals =>
    match vals with
    | [] => none
    | v :: vs =>
      match packOneF32 c v with
      | none => none
      | some cellsc => (packGoF32 cs vs).map (fun rest => cellsc ++ rest)

/-- struct.pack over a format string with binary32 rounding of float
fields. -/
def structPackF32 (s : String) (vals : List PValue) : Option (List Cell) :=
  packGoF32 (s.toList.filter (fun c => c ≠ '<')) vals

/-- Typing of one value with float fields restricted to values exactly
representable as finite binary32 (the shape of every value decoded from a
float32 buffer); other tags are typed as in wfValue. -/
def wfValueF32 (t : String) (v : PValue) : Bool :=
  if t = "float" then
    match v with
    | .pfloat q => decide (roundF32 q = q) && decide (-maxF32 ≤ q) && decide (q ≤ maxF32)
    | .pint _ => false
  else wfValue t v

/-- A record typed against a property list with float fields
binary32-representable. -/
def wfRecordF32 : List (String × String) → List PValue → Bool
  | [], [] => true
  | p :: ps, v :: vs => wfValueF32 p.1 v && wfRecordF32 ps vs
  | _, _ => false

/-! ### Concrete fixtures used by the witnesses -/

/-- The field list of the concrete scenario: (float x, float y, float z,
uchar r, uchar g, uchar b). -/
def propsC : List (String × String) :=
  [("float", "x"), ("float", "y"), ("float", "z"),
   ("uchar", "red"), ("uchar", "green"), ("uchar", "blue")]

/-- Five records: one at (100, 0, 0) and four within the cube from -1 to 1. -/
def rsC : List (List PValue) :=
  [[.pfloat 100, .pfloat 0, .pfloat 0, .pint 10, .pint 20, .pint 30],
   [.pfloat 0, .pfloat 0, .pfloat 0, .pint 1, .pint 2, .pint 3],
   [.pfloat 1, .pfloat 1, .pfloat 1, .pint 4, .pint 5, .pint 6],
   [.pfloat (-1), .pfloat (-1), .pfloat (-1), .pint 7, .pint 8, .pint 9],
   [.pfloat (1/2), .pfloat (-1/2), .pfloat (1/4), .pint 11, .pint 12, .pint 13]]

/-- The concrete scenario file: header declaring 5 records and the packed
binary body of the five records. -/
def cFile : PLYFile :=
  { lines := ["ply", "format binary_little_endian 1.0", "element vertex 5",
      "property float x", "property float y", "property float z",
      "property uchar red", "property uchar green", "property uchar blue", "end_header"],
    body := (rsC.map (recordCells propsC)).flatten }

/-- The output file the scenario crop writes: four retained records. -/
def cOutFile : PLYFile :=
  { lines := ["ply", "format binary_little_endian 1.0"] ++
      (cropComments "in.ply" (-1, 1) (-1, 1) (-1, 1) 5 4).map (fun c => "comment " ++ c) ++
      ["element vertex 4"] ++
      propsC.map (fun p => "property " ++ p.1 ++ " " ++ p.2) ++ ["end_header"],
    body := ((rsC.drop 1).map (recordCells propsC)).flatten }

/-- A file whose header terminator line never appears before end-of-file. -/
def noTermFile : PLYFile :=
  { lines := ["ply", "format binary_little_endian 1.0", "element vertex 2",
      "property float x"],
    body := [] }

/-- A file declaring zero records. -/
def zeroCountFile : PLYFile :=
  { lines := ["ply", "format binary_little_endian 1.0", "element vertex 0",
      "property float x", "property float y", "property float z", "end_header"],
    body := [] }

/-- A file declaring five records whose binary body is empty, so sampling
decodes zero records. -/
def truncatedFile : PLYFile :=
  { lines := ["ply", "format binary_little_endian 1.0", "element vertex 5",
      "property float x", "property float y", "property float z", "end_header"],
    body := [] }

/-- A mixed field list exercising all four supported tags. -/
def propsR : List (String × String) :=
  [("float", "x"), ("double", "y"), ("int", "z"), ("uchar", "red")]

/-- A well-typed record for propsR: the float field holds a
binary32-representable value (the float32 nearest 0.1), the double field a
dyadic rational exact in binary64, and the int field the most negative
int32. -/
def recR : List PValue :=
  [.pfloat (13421773 / 134217728), .pfloat (-7/2), .pint (-2147483648), .pint 255]

/-! ### Format string structure -/

theorem create_struct_format_toList (ps : List (String × String)) :
    (create_struct_format ps).toList = '<' :: fmtChars ps := by
  suffices h : ∀ (ps : List (String × String)) (acc : String),
      (ps.foldl (fun s p => s ++ typeChar p.1) acc).toList = acc.toList ++ fmtChars ps by
    simpa using h ps "<"
  intro ps
  induction ps with
  | nil => intro acc; simp [fmtChars]
  | cons p ps ih =>
    intro acc
    rw [List.foldl_cons, ih, fmtChars]
    rw [show (acc ++ typeChar p.1).toList = acc.toList ++ (typeChar p.1).toList from
      String.data_append acc (typeChar p.1)]
    rw [List.append_assoc]

theorem fmtChars_mem (ps : List (String × String)) :
    ∀ c ∈ fmtChars ps, c = 'f' ∨ c = 'B' ∨ c = 'i' ∨ c = 'd' := by
  induction ps with
  | nil => simp [fmtChars]
  | cons p ps ih =>
    intro c hc
    simp only [fmtChars, List.mem_append] at hc
    rcases hc with hc | hc
    · unfold typeChar at hc
      split at hc <;> (try split at hc) <;> (try split at hc) <;> (try split at hc) <;>
        simp_all
    · exact ih c hc

theorem filter_lt_fmtChars (ps : List (String × String)) :
    ('<' :: fmtChars ps).filter (fun c => c ≠ '<') = fmtChars ps := by
  rw [List.filter_cons]
  have h0 : ((fun c => decide (c ≠ '<')) '<') = false := by decide
  rw [if_neg (by simp)]
  apply List.filter_eq_self.2
  intro c hc
  rcases fmtChars_mem ps c hc with h | h | h | h <;> simp [h]

theorem structUnpack_create (ps : List (String × String)) (cells : List Cell) :
    structUnpack (create_struct_format ps) cells = unpackGo (fmtChars ps) cells := by
  unfold structUnpack
  rw [create_struct_format_toList, filter_lt_fmtChars]

theorem structPack_create (ps : List (String × String)) (vals : List PValue) :
    structPack (create_struct_format ps) vals = packGo (fmtChars ps) vals := by
  unfold structPack
  rw [create_struct_format_toList, filter_lt_fmtChars]

theorem structCalcsize_create (ps : List (String × String)) :
    structCalcsize (create_struct_format ps) = strideOf ps := by
  unfold structCalcsize strideOf
  rw [create_struct_format_toList, filter_lt_fmtChars]

/-! ### Record codec lemmas -/

theorem wfValue_cases {t : String} {v : PValue} (h : wfValue t v = true) :
    (t = "float" ∧ ∃ q, v = .pfloat q) ∨
    (t = "uchar" ∧ ∃ n, v = .pint n ∧ 0 ≤ n ∧ n < 256) ∨
    (t = "int" ∧ ∃ n, v = .pint n ∧ -2147483648 ≤ n ∧ n < 2147483648) ∨
    (t = "double" ∧ ∃ q, v = .pfloat q) := by
  by_cases h1 : t = "float"
  · subst h1
    cases v with
    | pfloat q => exact Or.inl ⟨rfl, q, rfl⟩
    | pint n => simp [wfValue, isPFloat] at h
  by_cases h2 : t = "uchar"
  · subst h2
    cases v with
    | pfloat q => simp [wfValue] at h
    | pint n =>
      have hh : (0 ≤ n ∧ n < 256) := by simpa [wfValue] using h
      exact Or.inr (Or.inl ⟨rfl, n, rfl, hh.1, hh.2⟩)
  by_cases h3 : t = "int"
  · subst h3
    cases v with
    | pfloat q => simp [wfValue] at h
    | pint n =>
      have hh : (-2147483648 ≤ n ∧ n < 2147483648) := by simpa [wfValue] using h
      exact Or.inr (Or.inr (Or.inl ⟨rfl, n, rfl, hh.1, hh.2⟩))
  by_cases h4 : t = "double"
  · subst h4
    cases v with
    | pfloat q => exact Or.inr (Or.inr (Or.inr ⟨rfl, q, rfl⟩))
    | pint n => simp [wfValue, isPFloat, h1, h2, h3] at h
  · simp [wfValue, h1, h2, h3, h4] at h

theorem wfRecord_length : ∀ (ps : List (String × String)) (r : List PValue),
    wfRecord ps r = true → ps.length = r.length := by
  intro ps
  induction ps with
  | nil => intro r h; cases r with
    | nil => rfl
    | cons v vs => simp [wfRecord] at h
  | cons p ps ih =>
    intro r h
    cases r with
    | nil => simp [wfRecord] at h
    | cons v vs =>
      simp only [wfRecord, Bool.and_eq_true] at h
      simp [ih vs h.2]

/-- Python int() is the identity on integers. -/
theorem ratInt_intCast (n : Int) : ratInt ((n : Int) : ℚ) = n := by
  unfold ratInt
  rw [Rat.num_intCast, Rat.den_intCast]
  simp

theorem int32_decode_encode {n : Int} (h1 : -2147483648 ≤ n) (h2 : n < 2147483648) :
    int32OfBytes ((n % 4294967296).toNat % 256) ((n % 4294967296).toNat / 256 % 256)
      ((n % 4294967296).toNat / 65536 % 256)
      ((n % 4294967296).toNat / 16777216 % 256) = n := by
  have h3 : 0 ≤ n % 4294967296 := Int.emod_nonneg _ (by norm_num)
  have h4 : n % 4294967296 < 4294967296 := Int.emod_lt_of_pos _ (by norm_num)
  have h5 : (((n % 4294967296).toNat : Int)) = n % 4294967296 :=
    Int.toNat_of_nonneg h3
  simp only [int32OfBytes]
  split <;> omega

theorem fieldCells_unpack {t : String} {v : PValue} (h : wfValue t v = true)
    (cs : List Char) (cells : List Cell) :
    unpackGo ((typeChar t).toList ++ cs) (fieldCells t v ++ cells) =
      (unpackGo cs cells).map (fun vs => v :: vs) := by
  rcases wfValue_cases h with ⟨ht, q, rfl⟩ | ⟨ht, n, rfl, hn1, hn2⟩ |
    ⟨ht, n, rfl, hn1, hn2⟩ | ⟨ht, q, rfl⟩ <;> subst ht
  · simp [typeChar, fieldCells, unpackGo, unpackOne]
  · have : (n.toNat : Int) = n := Int.toNat_of_nonneg hn1
    simp [typeChar, fieldCells, unpackGo, unpackOne, this]
  · simp [typeChar, fieldCells, int32Bytes, unpackGo, unpackOne,
      int32_decode_encode hn1 hn2]
  · simp [typeChar, fieldCells, unpackGo, unpackOne]

theorem fieldCells_length {t : String} {v : PValue} (h : wfValue t v = true) :
    (fieldCells t v).length = ((typeChar t).toList.map charWidth).sum := by
  rcases wfValue_cases h with ⟨ht, q, rfl⟩ | ⟨ht, n, rfl, hn1, hn2⟩ |
    ⟨ht, n, rfl, hn1, hn2⟩ | ⟨ht, q, rfl⟩ <;> subst ht <;>
    simp [fieldCells, typeChar, int32Bytes, charWidth]

theorem fieldCells_pack {t : String} {v : PValue} (h : wfValue t v = true)
    (cs : List Char) (ws : List PValue) :
    packGo ((typeChar t).toList ++ cs) (convertVal t (pvFloat v) :: ws) =
      (packGo cs ws).map (fun cells => fieldCells t v ++ cells) := by
  rcases wfValue_cases h with ⟨ht, q, rfl⟩ | ⟨ht, n, rfl, hn1, hn2⟩ |
    ⟨ht, n, rfl, hn1, hn2⟩ | ⟨ht, q, rfl⟩ <;> subst ht
  · simp [typeChar, fieldCells, convertVal, pvFloat, packGo, packOne]
  · have he : ratInt ((n : Int) : ℚ) % 256 = n := by
      rw [ratInt_intCast, Int.emod_eq_of_lt hn1 hn2]
    simp [typeChar, fieldCells, convertVal, pvFloat, packGo, packOne, he, hn1, hn2]
  · have he : ratInt ((n : Int) : ℚ) = n := ratInt_intCast n
    simp [typeChar, fieldCells, convertVal, pvFloat, packGo, packOne, he, hn1, hn2]
  · simp [typeChar, fieldCells, convertVal, pvFloat, packGo, packOne]

theorem unpack_recordCells_append :
    ∀ (ps : List (String × String)) (r : List PValue), wfRecord ps r = true →
    ∀ (cs : List Char) (cells : List Cell),
    unpackGo (fmtChars ps ++ cs) (recordCells ps r ++ cells) =
      (unpackGo cs cells).map (fun vs => r ++ vs) := by
  intro ps
  induction ps with
  | nil =>
    intro r h cs cells
    cases r with
    | nil =>
      simp only [fmtChars, recordCells, List.nil_append]
      cases unpackGo cs cells <;> simp
    | cons v vs => simp [wfRecord] at h
  | cons p ps ih =>
    intro r h cs cells
    cases r with
    | nil => simp [wfRecord] at h
    | cons v vs =>
      simp only [wfRecord, Bool.and_eq_true] at h
      simp only [fmtChars, recordCells, List.append_assoc]
      rw [fieldCells_unpack h.1, ih vs h.2]
      cases unpackGo cs cells <;> simp

theorem unpack_recordCells {ps : List (String × String)} {r : List PValue}
    (h : wfRecord ps r = true) :
    unpackGo (fmtChars ps) (recordCells ps r) = some r := by
  have hh := unpack_recordCells_append ps r h [] []
  simpa [unpackGo] using hh

theorem recordCells_length : ∀ (ps : List (String × String)) (r : List PValue),
    wfRecord ps r = true → (recordCells ps r).length = strideOf ps := by
  intro ps
  induction ps with
  | nil =>
    intro r h
    cases r with
    | nil => simp [recordCells, strideOf, fmtChars]
    | cons v vs => simp [wfRecord] at h
  | cons p ps ih =>
    intro r h
    cases r with
    | nil => simp [wfRecord] at h
    | cons v vs =>
      simp only [wfRecord, Bool.and_eq_true] at h
      simp only [recordCells, List.length_append, strideOf, fmtChars, List.map_append,
        List.sum_append]
      rw [fieldCells_length h.1, ih vs h.2]
      rfl

theorem pack_record : ∀ (ps : List (String × String)) (r : List PValue),
    wfRecord ps r = true →
    packGo (fmtChars ps) (convertVertex ps (r.map pvFloat)) = some (recordCells ps r) := by
  intro ps
  induction ps with
  | nil =>
    intro r h
    cases r with
    | nil => simp [fmtChars, convertVertex, packGo, recordCells]
    | cons v vs => simp [wfRecord] at h
  | cons p ps ih =>
    intro r h
    cases r with
    | nil => simp [wfRecord] at h
    | cons v vs =>
      simp only [wfRecord, Bool.and_eq_true] at h
      simp only [fmtChars, convertVertex, List.map_cons, List.headD_cons, List.tail_cons]
      rw [fieldCells_pack h.1, ih vs h.2]
      simp [recordCells]

theorem structPackF32_create (ps : List (String × String)) (vals : List PValue) :
    structPackF32 (create_struct_format ps) vals = packGoF32 (fmtChars ps) vals := by
  unfold structPackF32
  rw [create_struct_format_toList, filter_lt_fmtChars]

theorem wfValueF32_wf {t : String} {v : PValue} (h : wfValueF32 t v = true) :
    wfValue t v = true := by
  by_cases hf : t = "float"
  · subst hf
    cases v with
    | pfloat q => simp [wfValue, isPFloat]
    | pint n => simp [wfValueF32] at h
  · simpa [wfValueF32, hf] using h

theorem wfRecordF32_wf : ∀ (ps : List (String × String)) (r : List PValue),
    wfRecordF32 ps r = true → wfRecord ps r = true := by
  intro ps
  induction ps with
  | nil =>
    intro r h
    cases r with
    | nil => rfl
    | cons v vs => simp [wfRecordF32] at h
  | cons p ps ih =>
    intro r h
    cases r with
    | nil => simp [wfRecordF32] at h
    | cons v vs =>
      simp only [wfRecordF32, Bool.and_eq_true] at h
      simp [wfRecord, wfValueF32_wf h.1, ih vs h.2]

theorem fieldCells_packF32 {t : String} {v : PValue} (h : wfValueF32 t v = true)
    (cs : List Char) (ws : List PValue) :
    packGoF32 ((typeChar t).toList ++ cs) (convertVal t (pvFloat v) :: ws) =
      (packGoF32 cs ws).map (fun cells => fieldCells t v ++ cells) := by
  by_cases hf : t = "float"
  · subst hf
    cases v with
    | pint n => simp [wfValueF32] at h
    | pfloat q =>
      have h3 : roundF32 q = q ∧ -maxF32 ≤ q ∧ q ≤ maxF32 := by
        simpa [wfValueF32, and_assoc] using h
      simp [typeChar, fieldCells, convertVal, pvFloat, packGoF32, packOneF32,
        h3.1, h3.2.1, h3.2.2]
  · have hw : wfValue t v = true := wfValueF32_wf h
    rcases wfValue_cases hw with ⟨ht, q, rfl⟩ | ⟨ht, n, rfl, hn1, hn2⟩ |
      ⟨ht, n, rfl, hn1, hn2⟩ | ⟨ht, q, rfl⟩
    · exact absurd ht hf
    · subst ht
      have he : ratInt ((n : Int) : ℚ) % 256 = n := by
        rw [ratInt_intCast, Int.emod_eq_of_lt hn1 hn2]
      simp [typeChar, fieldCells, convertVal, pvFloat, packGoF32, packOneF32, packOne,
        he, hn1, hn2]
    · subst ht
      have he : ratInt ((n : Int) : ℚ) = n := ratInt_intCast n
      simp [typeChar, fieldCells, convertVal, pvFloat, packGoF32, packOneF32, packOne,
        he, hn1, hn2]
    · subst ht
      simp [typeChar, fieldCells, convertVal, pvFloat, packGoF32, packOneF32, packOne]

theorem packF32_record : ∀ (ps : List (String × String)) (r : List PValue),
    wfRecordF32 ps r = true →
    packGoF32 (fmtChars ps) (convertVertex ps (r.map pvFloat)) =
      some (recordCells ps r) := by
  intro ps
  induction ps with
  | nil =>
    intro r h
    cases r with
    | nil => simp [fmtChars, convertVertex, packGoF32, recordCells]
    | cons v vs => simp [wfRecordF32] at h
  | cons p ps ih =>
    intro r h
    cases r with
    | nil => simp [wfRecordF32] at h
    | cons v vs =>
      simp only [wfRecordF32, Bool.and_eq_true] at h
      simp only [fmtChars, convertVertex, List.map_cons, List.headD_cons, List.tail_cons]
      rw [fieldCells_packF32 h.1, ih vs h.2]
      simp [recordCells]

theorem strideOf_pos {ps : List (String × String)} {r : List PValue}
    (h : wfRecord ps r = true) (hne : ps ≠ []) : 0 < strideOf ps := by
  cases ps with
  | nil => exact absurd rfl hne
  | cons p ps =>
    cases r with
    | nil => simp [wfRecord] at h
    | cons v vs =>
      simp only [wfRecord, Bool.and_eq_true] at h
      rcases wfValue_cases h.1 with ⟨ht, _, _⟩ | ⟨ht, _, _, _, _⟩ |
        ⟨ht, _, _, _, _⟩ | ⟨ht, _, _⟩ <;>
        simp [strideOf, fmtChars, ht, typeChar, charWidth, List.map_append,
          List.sum_append]

/-! ### Streaming lemmas -/

theorem flatten_drop {α : Type} {L : Nat} :
    ∀ (s : Nat) (bufs : List (List α)), (∀ b ∈ bufs, b.length = L) →
    (bufs.flatten).drop (L * s) = (bufs.drop s).flatten := by
  intro s
  induction s with
  | zero => intro bufs h; simp
  | succ s ih =>
    intro bufs h
    cases bufs with
    | nil => simp
    | cons b bs =>
      have hb : b.length = L := h b (List.mem_cons_self b bs)
      simp only [List.flatten_cons, List.drop_succ_cons]
      rw [show L * (s + 1) = b.length + L * s by rw [hb]; ring, List.drop_append]
      exact ih bs (fun b2 hb2 => h b2 (List.mem_cons_of_mem _ hb2))

theorem flatten_length {α : Type} {L : Nat} :
    ∀ (bufs : List (List α)), (∀ b ∈ bufs, b.length = L) →
    bufs.flatten.length = L * bufs.length := by
  intro bufs
  induction bufs with
  | nil => simp
  | cons b bs ih =>
    intro h
    have hb : b.length = L := h b (List.mem_cons_self b bs)
    simp only [List.flatten_cons, List.length_append, List.length_cons]
    rw [hb, ih (fun b2 hb2 => h b2 (List.mem_cons_of_mem _ hb2))]
    ring

theorem bufs_length {props : List (String × String)} {rs : List (List PValue)}
    (hwf : ∀ r ∈ rs, wfRecord props r = true) :
    ∀ b ∈ rs.map (recordCells props), b.length = strideOf props := by
  intro b hb
  rcases List.mem_map.1 hb with ⟨r, hr, rfl⟩
  exact recordCells_length _ _ (hwf r hr)

theorem body_drop {props : List (String × String)} {rs : List (List PValue)}
    (hwf : ∀ r ∈ rs, wfRecord props r = true) (s : Nat) :
    ((rs.map (recordCells props)).flatten).drop (strideOf props * s) =
      ((rs.drop s).map (recordCells props)).flatten := by
  rw [flatten_drop s _ (bufs_length hwf), List.map_drop]

theorem wf_at {props : List (String × String)} {rs : List (List PValue)}
    (hwf : ∀ r ∈ rs, wfRecord props r = true) {s : Nat} (hs : s < rs.length) :
    wfRecord props rs[s] = true :=
  hwf _ (List.getElem_mem hs)

/-- Reading one stride at the offset of record s yields exactly its buffer. -/
theorem body_read_at {props : List (String × String)} {rs : List (List PValue)}
    (hwf : ∀ r ∈ rs, wfRecord props r = true) {s : Nat} (hs : s < rs.length) :
    (((rs.map (recordCells props)).flatten).drop (strideOf props * s)).take
        (strideOf props) = recordCells props rs[s] := by
  rw [body_drop hwf, List.drop_eq_getElem_cons hs]
  simp only [List.map_cons, List.flatten_cons]
  exact List.take_left' (recordCells_length _ _ (wf_at hwf hs))

theorem readChunkRecs_spec {props : List (String × String)} {rs : List (List PValue)}
    (hwf : ∀ r ∈ rs, wfRecord props r = true) (hL : 0 < strideOf props) :
    ∀ (n s : Nat), s ≤ rs.length →
    readChunkRecs ((rs.map (recordCells props)).flatten) (strideOf props)
        (create_struct_format props) (strideOf props * s) n =
      some ((rs.drop s).take n, strideOf props * min (s + n) rs.length) := by
  intro n
  induction n with
  | zero =>
    intro s hs
    simp [readChunkRecs, Nat.min_eq_left hs]
  | succ n ih =>
    intro s hs
    rcases eq_or_lt_of_le hs with heq | hlt
    · subst heq
      simp only [readChunkRecs]
      rw [body_drop hwf]
      simp only [List.drop_length, List.map_nil, List.flatten_nil, List.take_nil,
        List.length_nil]
      rw [if_neg (by omega)]
      simp [Nat.min_eq_right (show rs.length ≤ rs.length + (n + 1) by omega)]
    · simp only [readChunkRecs]
      rw [body_read_at hwf hlt]
      rw [if_pos (recordCells_length _ _ (wf_at hwf hlt))]
      rw [structUnpack_create, unpack_recordCells (wf_at hwf hlt)]
      rw [show strideOf props * s + strideOf props = strideOf props * (s + 1) by ring]
      rw [ih (s + 1) hlt]
      rw [List.drop_eq_getElem_cons hlt, List.take_succ_cons]
      rw [show s + 1 + n = s + (n + 1) by ring]

theorem cropChunksGo_spec {props : List (String × String)} {rs : List (List PValue)}
    (hwf : ∀ r ∈ rs, wfRecord props r = true) (hL : 0 < strideOf props)
    (hdim : ∀ r ∈ rs, 3 ≤ r.length) (xr yr zr : ℚ × ℚ) :
    ∀ (m s : Nat) (acc : List (List ℚ)),
    rs.length ≤ s + 50000 * m →
    (∀ j < m, s + 50000 * j < rs.length) →
    cropChunksGo ((rs.map (recordCells props)).flatten) (strideOf props)
        (create_struct_format props) xr yr zr rs.length
        (List.range' s m 50000) (strideOf props * s) acc =
      some (acc ++ ((rs.drop s).map (fun r => r.map pvFloat)).filter
        (fun r => inBounds xr yr zr r)) := by
  intro m
  induction m with
  | zero =>
    intro s acc hcov hall
    have hdrop : rs.drop s = [] := by
      apply List.drop_eq_nil_of_le
      omega
    simp [cropChunksGo, hdrop]
  | succ m ih =>
    intro s acc hcov hall
    have hs : s < rs.length := by
      have := hall 0 (by omega)
      omega
    have hsle : s ≤ rs.length := le_of_lt hs
    simp only [List.range'_succ, cropChunksGo]
    rw [readChunkRecs_spec hwf hL _ s hsle]
    dsimp only
    have hcnt1 : 1 ≤ min (s + 50000) rs.length - s := by
      have h9 : s + 1 ≤ min (s + 50000) rs.length := le_min (by omega) hs
      omega
    have hdne : rs.drop s ≠ [] := by
      apply List.length_pos.1
      simp only [List.length_drop]
      omega
    have hne2 : (rs.drop s).take (min (s + 50000) rs.length - s) ≠ [] := by
      obtain ⟨k, hk⟩ : ∃ k, min (s + 50000) rs.length - s = k + 1 :=
        ⟨min (s + 50000) rs.length - s - 1, by omega⟩
      rw [hk]
      cases hc : rs.drop s with
      | nil => exact absurd hc hdne
      | cons a t => simp
    have hemp : ¬(((rs.drop s).take (min (s + 50000) rs.length - s)).isEmpty = true) := by
      rw [List.isEmpty_iff]
      exact hne2
    rw [if_neg hemp]
    have hmem3 : ∀ r ∈ (rs.drop s).take (min (s + 50000) rs.length - s), 3 ≤ r.length :=
      fun r hr => hdim r (List.mem_of_mem_drop (List.mem_of_mem_take hr))
    have hany : ¬((((rs.drop s).take (min (s + 50000) rs.length - s)).any
        (fun r => decide (r.length < 3))) = true) := by
      simp only [List.any_eq_true, not_exists, not_and, decide_eq_true_eq]
      intro r hr
      have h8 := hmem3 r hr
      omega
    rw [if_neg hany]
    rcases Nat.eq_zero_or_pos m with rfl | hm
    · -- last chunk: it reaches the end of the records
      have hend : min (s + 50000) rs.length = rs.length := by omega
      rw [hend]
      have htake : (rs.drop s).take (rs.length - s) = rs.drop s :=
        List.take_of_length_le (by simp [List.length_drop])
      rw [htake]
      simp [cropChunksGo]
    · -- more chunks follow: this one is full
      have hnext : min (s + 50000) rs.length = s + 50000 := by
        have h7 := hall 1 (by omega)
        omega
      rw [hnext]
      have hc2 : s + 50000 - s = 50000 := by omega
      rw [hc2]
      rw [hnext]
      rw [ih (s + 50000) _ (by omega) (by
        intro j hj
        have h6 := hall (j + 1) (by omega)
        omega)]
      congr 1
      rw [List.append_assoc]
      congr 1
      have hds : rs.drop s = (rs.drop s).take 50000 ++ rs.drop (s + 50000) := by
        conv_lhs => rw [← List.take_append_drop 50000 (rs.drop s)]
        rw [List.drop_drop]
      conv_rhs => rw [hds]
      rw [List.map_append, List.filter_append]

theorem collectSample_spec {props : List (String × String)} {rs : List (List PValue)}
    (hwf : ∀ r ∈ rs, wfRecord props r = true) :
    ∀ (idxs : List Nat) (acc : List (List PValue)) (S : Nat),
    (∀ i ∈ idxs, i < rs.length) →
    collectSample ((rs.map (recordCells props)).flatten) (strideOf props)
        (create_struct_format props) S idxs acc =
      some (acc ++ (idxs.map (fun i => rs.getD i [])).take (S - acc.length)) := by
  intro idxs
  induction idxs with
  | nil => intro acc S h; simp [collectSample]
  | cons i rest ih =>
    intro acc S h
    have hi : i < rs.length := h i (List.mem_cons_self i rest)
    by_cases hS : S ≤ acc.length
    · simp [collectSample, hS, Nat.sub_eq_zero_of_le hS]
    · simp only [collectSample, if_neg hS]
      rw [show i * strideOf props = strideOf props * i from Nat.mul_comm i _]
      rw [body_read_at hwf hi]
      rw [if_pos (recordCells_length _ _ (wf_at hwf hi))]
      rw [structUnpack_create, unpack_recordCells (wf_at hwf hi)]
      dsimp only
      rw [ih (acc ++ [rs[i]]) S (fun j hj => h j (List.mem_cons_of_mem _ hj))]
      rw [List.map_cons, List.getD_eq_getElem _ _ hi]
      rw [show S - acc.length = (S - (acc ++ [rs[i]]).length) + 1 by
        simp [List.length_append]; omega]
      rw [List.take_succ_cons]
      simp

theorem pyRange_lt {stop step : Nat} (hstep : 0 < step) :
    ∀ i ∈ pyRange stop step, i < stop := by
  intro i hi
  unfold pyRange at hi
  rcases List.mem_range'.1 hi with ⟨j, hj, rfl⟩
  have h1 : step * ((stop + step - 1) / step) ≤ stop + step - 1 := by
    rw [Nat.mul_comm]
    exact Nat.div_mul_le_self _ _
  have h4 : step * (j + 1) ≤ step * ((stop + step - 1) / step) :=
    Nat.mul_le_mul_left step hj
  rw [Nat.mul_succ] at h4
  omega

theorem pyRange_ne_nil {stop step : Nat} (h0 : 0 < stop) (hstep : 0 < step) :
    pyRange stop step ≠ [] := by
  unfold pyRange
  have h1 : 1 ≤ (stop + step - 1) / step := (Nat.one_le_div_iff hstep).2 (by omega)
  intro hctr
  have := congrArg List.length hctr
  simp [List.length_range'] at this
  omega

/-! ### End-to-end lemmas about analyze and crop -/

theorem mapM_pack {props : List (String × String)} :
    ∀ (sel : List (List PValue)), (∀ r ∈ sel, wfRecord props r = true) →
    (sel.map (fun r => r.map pvFloat)).mapM
        (fun v => structPack (create_struct_format props) (convertVertex props v)) =
      some (sel.map (recordCells props)) := by
  intro sel
  induction sel with
  | nil => intro h; rfl
  | cons r rest ih =>
    intro h
    simp only [List.map_cons, List.mapM_cons]
    rw [structPack_create, pack_record _ _ (h r (List.mem_cons_self r rest))]
    rw [ih (fun x hx => h x (List.mem_cons_of_mem _ hx))]
    rfl

theorem filter_of_map (rs : List (List PValue)) (p : List ℚ → Bool) :
    (rs.map (fun r => r.map pvFloat)).filter p =
      (rs.filter (fun r => p (r.map pvFloat))).map (fun r => r.map pvFloat) := by
  induction rs with
  | nil => rfl
  | cons r rest ih =>
    simp only [List.map_cons, List.filter_cons]
    by_cases hp : p (r.map pvFloat)
    · simp [hp, ih]
    · simp [hp, ih]

theorem cropChunksGo_full {props : List (String × String)} {rs : List (List PValue)}
    (hwf : ∀ r ∈ rs, wfRecord props r = true) (hL : 0 < strideOf props)
    (hdim : ∀ r ∈ rs, 3 ≤ r.length) (xr yr zr : ℚ × ℚ) :
    cropChunksGo ((rs.map (recordCells props)).flatten) (strideOf props)
        (create_struct_format props) xr yr zr rs.length (pyRange rs.length 50000) 0 [] =
      some ((rs.map (fun r => r.map pvFloat)).filter (fun r => inBounds xr yr zr r)) := by
  have hdm := Nat.div_add_mod (rs.length + 50000 - 1) 50000
  have hmod := Nat.mod_lt (rs.length + 50000 - 1) (show 0 < 50000 by norm_num)
  have h0 := cropChunksGo_spec hwf hL hdim xr yr zr ((rs.length + 50000 - 1) / 50000) 0 []
    (by omega) (by intro j hj; omega)
  simpa [pyRange] using h0

theorem pyRange_pos_step (stop : Nat) (S : Nat) : 0 < max 1 (stop / S) :=
  lt_of_lt_of_le Nat.one_pos (le_max_left _ _)

theorem analyze_spec (file : PLYFile) (hls : List String)
    (props : List (String × String)) (rs : List (List PValue)) (c : Nat)
    (hread : read_ply_header file = some hls)
    (hN : (parse_ply_header hls).1 = rs.length)
    (hprops : (parse_ply_header hls).2.1 = props)
    (hbody : file.body = (rs.map (recordCells props)).flatten)
    (hwf : ∀ r ∈ rs, wfRecord props r = true)
    (hdim : ∀ r ∈ rs, 3 ≤ r.length)
    (hne : rs ≠ [])
    (hc : 0 < c) :
    ∃ info, analyze_point_cloud_bounds file c = .ok info := by
  have hlen : 0 < rs.length := List.length_pos.2 hne
  have hS0 : ¬(min c rs.length = 0) := by omega
  have hstep : 0 < max 1 (rs.length / min c rs.length) := pyRange_pos_step _ _
  have hidx : ∀ i ∈ pyRange rs.length (max 1 (rs.length / min c rs.length)), i < rs.length :=
    pyRange_lt hstep
  have hsample := collectSample_spec hwf
    (pyRange rs.length (max 1 (rs.length / min c rs.length))) [] (min c rs.length) hidx
  have hKne : pyRange rs.length (max 1 (rs.length / min c rs.length)) ≠ [] :=
    pyRange_ne_nil hlen hstep
  simp only [analyze_point_cloud_bounds, hread, hN, hprops, structCalcsize_create,
    hbody, if_neg hS0]
  rw [hsample]
  dsimp only
  set idxs := pyRange rs.length (max 1 (rs.length / min c rs.length)) with hidxs
  have hmem : ∀ v ∈ (idxs.map (fun i => rs.getD i [])).take
      (min c rs.length - List.length ([] : List (List PValue))), v ∈ rs := by
    intro v hv
    have hv2 := List.mem_of_mem_take hv
    rcases List.mem_map.1 hv2 with ⟨i, hi, rfl⟩
    have hilt := hidx i hi
    rw [List.getD_eq_getElem _ _ hilt]
    exact List.getElem_mem hilt
  have hsne : ([] : List (List PValue)) ++ (idxs.map (fun i => rs.getD i [])).take
      (min c rs.length - List.length ([] : List (List PValue))) ≠ [] := by
    simp only [List.nil_append, List.length_nil, Nat.sub_zero]
    cases hx : idxs with
    | nil => exact absurd hx hKne
    | cons a t =>
      obtain ⟨k, hk⟩ : ∃ k, min c rs.length = k + 1 := ⟨min c rs.length - 1, by omega⟩
      rw [hk]
      simp
  rw [if_neg (by rw [List.isEmpty_iff]; exact hsne)]
  rw [if_neg (by
    simp only [List.any_eq_true, not_exists, not_and, decide_eq_true_eq]
    intro r hr
    have h8 : r ∈ rs := by
      rcases List.mem_append.1 hr with h9 | h9
      · simp at h9
      · exact hmem r h9
    have := hdim r h8
    omega)]
  exact ⟨_, rfl⟩

theorem props_ne_nil {props : List (String × String)} {rs : List (List PValue)}
    (hwf : ∀ r ∈ rs, wfRecord props r = true) (hdim : ∀ r ∈ rs, 3 ≤ r.length)
    (hne : rs ≠ []) : props ≠ [] := by
  cases rs with
  | nil => exact absurd rfl hne
  | cons r rest =>
    have hw := hwf r (List.mem_cons_self r rest)
    have h3 := hdim r (List.mem_cons_self r rest)
    have hlen := wfRecord_length props r hw
    intro hctr
    rw [hctr] at hlen
    simp at hlen
    omega

theorem strideOf_pos_of_wf {props : List (String × String)} {rs : List (List PValue)}
    (hwf : ∀ r ∈ rs, wfRecord props r = true) (hdim : ∀ r ∈ rs, 3 ≤ r.length)
    (hne : rs ≠ []) : 0 < strideOf props := by
  cases rs with
  | nil => exact absurd rfl hne
  | cons r rest =>
    exact strideOf_pos (hwf r (List.mem_cons_self r rest)) (props_ne_nil hwf hdim hne)

theorem crop_spec (input_path : String) (file : PLYFile) (hls : List String)
    (props : List (String × String)) (rs : List (List PValue)) (xr yr zr : ℚ × ℚ)
    (hread : read_ply_header file = some hls)
    (hN : (parse_ply_header hls).1 = rs.length)
    (hprops : (parse_ply_header hls).2.1 = props)
    (hbody : file.body = (rs.map (recordCells props)).flatten)
    (hwf : ∀ r ∈ rs, wfRecord props r = true)
    (hdim : ∀ r ∈ rs, 3 ≤ r.length)
    (hne : rs ≠ []) :
    crop_by_bounds input_path file (some xr) (some yr) (some zr) none false =
      (if (rs.filter (fun r => inBounds xr yr zr (r.map pvFloat))).isEmpty
       then CropResult.emptyResult
       else CropResult.success
        { lines := ["ply", "format binary_little_endian 1.0"] ++
            (cropComments input_path xr yr zr rs.length
              (rs.filter (fun r => inBounds xr yr zr (r.map pvFloat))).length).map
              (fun c => "comment " ++ c) ++
            ["element vertex " ++
              toString (rs.filter (fun r => inBounds xr yr zr (r.map pvFloat))).length] ++
            props.map (fun p => "property " ++ p.1 ++ " " ++ p.2) ++ ["end_header"],
          body := ((rs.filter (fun r => inBounds xr yr zr (r.map pvFloat))).map
            (recordCells props)).flatten }
        rs.length (rs.filter (fun r => inBounds xr yr zr (r.map pvFloat))).length) := by
  obtain ⟨info, hana⟩ := analyze_spec file hls props rs 10000 hread hN hprops hbody hwf
    hdim hne (by norm_num)
  have hL : 0 < strideOf props := strideOf_pos_of_wf hwf hdim hne
  have hchunks := cropChunksGo_full hwf hL hdim xr yr zr
  simp only [crop_by_bounds, hana, hread, hN, hprops, structCalcsize_create, hbody,
    Option.getD_some, Bool.false_eq_true, if_false]
  rw [hchunks]
  dsimp only
  rw [filter_of_map]
  by_cases hk : rs.filter (fun r => inBounds xr yr zr (r.map pvFloat)) = []
  · rw [hk]
    simp
  · have hkmap : ¬(((rs.filter (fun r => inBounds xr yr zr (r.map pvFloat))).map
        (fun r => r.map pvFloat)).isEmpty = true) := by
      rw [List.isEmpty_iff]
      simp only [List.map_eq_nil_iff]
      exact hk
    rw [if_neg hkmap]
    rw [if_neg (by rw [List.isEmpty_iff]; exact hk)]
    simp only [write_ply_file]
    rw [mapM_pack _ (fun r hr => hwf r (List.mem_of_mem_filter hr))]
    dsimp only
    simp [List.length_map]

/-! ### Claim theorems -/

/-- C1: the streaming filter retains a record exactly when its first three
field values x, y, z lie inside the three crop ranges with inclusive
comparisons on both ends (the retained rows are the inBounds-filter of the
decoded rows, in input order), and the whole crop reports the original
count and the retained count accordingly.  The concrete 5-record scenario
of the claim is checked in the witness. -/
theorem crop_retains_iff_inclusive_bounds
    (input_path : String) (file : PLYFile) (hls : List String)
    (props : List (String × String)) (rs : List (List PValue)) (xr yr zr : ℚ × ℚ)
    (hread : read_ply_header file = some hls)
    (hN : (parse_ply_header hls).1 = rs.length)
    (hprops : (parse_ply_header hls).2.1 = props)
    (hbody : file.body = (rs.map (recordCells props)).flatten)
    (hwf : ∀ r ∈ rs, wfRecord props r = true)
    (hdim : ∀ r ∈ rs, 3 ≤ r.length)
    (hne : rs ≠ []) :
    cropChunksGo file.body (structCalcsize (create_struct_format props))
        (create_struct_format props) xr yr zr rs.length (pyRange rs.length 50000) 0 [] =
      some ((rs.map (fun r => r.map pvFloat)).filter (fun r => inBounds xr yr zr r)) ∧
    crop_by_bounds input_path file (some xr) (some yr) (some zr) none false =
      (if (rs.filter (fun r => inBounds xr yr zr (r.map pvFloat))).isEmpty
       then CropResult.emptyResult
       else CropResult.success
        { lines := ["ply", "format binary_little_endian 1.0"] ++
            (cropComments input_path xr yr zr rs.length
              (rs.filter (fun r => inBounds xr yr zr (r.map pvFloat))).length).map
              (fun c => "comment " ++ c) ++
            ["element vertex " ++
              toString (rs.filter (fun r => inBounds xr yr zr (r.map pvFloat))).length] ++
            props.map (fun p => "property " ++ p.1 ++ " " ++ p.2) ++ ["end_header"],
          body := ((rs.filter (fun r => inBounds xr yr zr (r.map pvFloat))).map
            (recordCells props)).flatten }
        rs.length (rs.filter (fun r => inBounds xr yr zr (r.map pvFloat))).length) := by
  constructor
  · rw [structCalcsize_create, hbody]
    exact cropChunksGo_full hwf (strideOf_pos_of_wf hwf hdim hne) hdim xr yr zr
  · exact crop_spec input_path file hls props rs xr yr zr hread hN hprops hbody hwf hdim hne

/-- Witness for C1: the concrete scenario, cropping the 5-record file to
the cube from -1 to 1 on all three axes retains exactly the four in-range
records and reports original 5, retained 4. -/
theorem crop_retains_iff_inclusive_bounds_witness :
    (cropChunksGo cFile.body (structCalcsize (create_struct_format propsC))
        (create_struct_format propsC) (-1, 1) (-1, 1) (-1, 1) rsC.length
        (pyRange rsC.length 50000) 0 [] =
      some ((rsC.map (fun r => r.map pvFloat)).filter
        (fun r => inBounds (-1, 1) (-1, 1) (-1, 1) r))) ∧
    crop_by_bounds "in.ply" cFile (some (-1, 1)) (some (-1, 1)) (some (-1, 1)) none false =
      .success cOutFile 5 4 := by
  have h := crop_retains_iff_inclusive_bounds "in.ply" cFile cFile.lines propsC rsC
    (-1, 1) (-1, 1) (-1, 1) (by decide) (by decide) (by decide) rfl (by decide)
    (by decide) (by decide)
  refine ⟨h.1, ?_⟩
  rw [h.2]
  decide

/-- C2: a successful crop writes a header whose element vertex count is the
number of retained records, one property line per input field with the same
tag and name in input order, and a body that is exactly the concatenation
of the retained records' encoded buffers in their order of retention. -/
theorem crop_output_structure
    (input_path : String) (file : PLYFile) (hls : List String)
    (props : List (String × String)) (rs : List (List PValue)) (xr yr zr : ℚ × ℚ)
    (hread : read_ply_header file = some hls)
    (hN : (parse_ply_header hls).1 = rs.length)
    (hprops : (parse_ply_header hls).2.1 = props)
    (hbody : file.body = (rs.map (recordCells props)).flatten)
    (hwf : ∀ r ∈ rs, wfRecord props r = true)
    (hdim : ∀ r ∈ rs, 3 ≤ r.length)
    (hne : rs ≠ [])
    (hk : rs.filter (fun r => inBounds xr yr zr (r.map pvFloat)) ≠ []) :
    crop_by_bounds input_path file (some xr) (some yr) (some zr) none false =
      CropResult.success
        { lines := ["ply", "format binary_little_endian 1.0"] ++
            (cropComments input_path xr yr zr rs.length
              (rs.filter (fun r => inBounds xr yr zr (r.map pvFloat))).length).map
              (fun c => "comment " ++ c) ++
            ["element vertex " ++
              toString (rs.filter (fun r => inBounds xr yr zr (r.map pvFloat))).length] ++
            props.map (fun p => "property " ++ p.1 ++ " " ++ p.2) ++ ["end_header"],
          body := ((rs.filter (fun r => inBounds xr yr zr (r.map pvFloat))).map
            (recordCells props)).flatten }
        rs.length (rs.filter (fun r => inBounds xr yr zr (r.map pvFloat))).length := by
  rw [crop_spec input_path file hls props rs xr yr zr hread hN hprops hbody hwf hdim hne]
  rw [if_neg (by rw [List.isEmpty_iff]; exact hk)]

/-- Witness for C2: on the concrete scenario the written file has element
vertex 4, the six property lines in input order, and the four retained
buffers in order. -/
theorem crop_output_structure_witness :
    crop_by_bounds "in.ply" cFile (some (-1, 1)) (some (-1, 1)) (some (-1, 1)) none false =
      .success cOutFile 5 4 ∧
    cOutFile.body = ((rsC.drop 1).map (recordCells propsC)).flatten ∧
    cOutFile.lines.getD 7 "" = "element vertex 4" := by
  have h := crop_output_structure "in.ply" cFile cFile.lines propsC rsC
    (-1, 1) (-1, 1) (-1, 1) (by decide) (by decide) (by decide) rfl (by decide)
    (by decide) (by decide) (by decide)
  refine ⟨?_, rfl, by decide⟩
  rw [h]
  decide

/-- C3: with N records and sample ceiling c, the estimator uses the sample
size min c N and the stride max 1 (N / (min c N)) with truncating division,
visits the indices 0, step, 2·step, … below N seeking directly to each
offset, and collects exactly the records at those indices truncated to the
sample size; the sample is this fixed list, hence deterministic. -/
theorem bounds_estimator_sampling
    (file : PLYFile) (hls : List String)
    (props : List (String × String)) (rs : List (List PValue)) (c : Nat)
    (hread : read_ply_header file = some hls)
    (hN : (parse_ply_header hls).1 = rs.length)
    (hprops : (parse_ply_header hls).2.1 = props)
    (hbody : file.body = (rs.map (recordCells props)).flatten)
    (hwf : ∀ r ∈ rs, wfRecord props r = true)
    (hdim : ∀ r ∈ rs, 3 ≤ r.length)
    (hne : rs ≠ [])
    (hc : 0 < c) :
    collectSample file.body (structCalcsize (create_struct_format props))
        (create_struct_format props) (min c rs.length)
        (pyRange rs.length (max 1 (rs.length / min c rs.length))) [] =
      some (((pyRange rs.length (max 1 (rs.length / min c rs.length))).map
        (fun i => rs.getD i [])).take (min c rs.length)) ∧
    (∀ (j : Nat) (hj : j < (pyRange rs.length
        (max 1 (rs.length / min c rs.length))).length),
      (pyRange rs.length (max 1 (rs.length / min c rs.length)))[j] =
        max 1 (rs.length / min c rs.length) * j) ∧
    ∃ info, analyze_point_cloud_bounds file c = .ok info := by
  have hstep : 0 < max 1 (rs.length / min c rs.length) := pyRange_pos_step _ _
  refine ⟨?_, ?_, analyze_spec file hls props rs c hread hN hprops hbody hwf hdim hne hc⟩
  · rw [structCalcsize_create, hbody]
    have h := collectSample_spec hwf
      (pyRange rs.length (max 1 (rs.length / min c rs.length))) [] (min c rs.length)
      (pyRange_lt hstep)
    simpa using h
  · intro j hj
    unfold pyRange at hj ⊢
    rw [List.getElem_range' j hj]
    omega

/-- Witness for C3: sampling the 5-record file with ceiling 2 uses stride
2 and collects exactly the records at indices 0 and 2. -/
theorem bounds_estimator_sampling_witness :
    (0 < 2 ∧ max 1 (rsC.length / min 2 rsC.length) = 2 ∧
      pyRange rsC.length 2 = [0, 2, 4]) ∧
    collectSample cFile.body (structCalcsize (create_struct_format propsC))
        (create_struct_format propsC) (min 2 rsC.length)
        (pyRange rsC.length (max 1 (rsC.length / min 2 rsC.length))) [] =
      some [[.pfloat 100, .pfloat 0, .pfloat 0, .pint 10, .pint 20, .pint 30],
            [.pfloat 1, .pfloat 1, .pfloat 1, .pint 4, .pint 5, .pint 6]] := by
  have h := bounds_estimator_sampling cFile cFile.lines propsC rsC 2
    (by decide) (by decide) (by decide) rfl (by decide) (by decide) (by decide)
    (by decide)
  refine ⟨by decide, ?_⟩
  rw [h.1]
  decide

/-- C4: for every integer v written to an unsigned-byte field, the writer
converts it to v mod 256 in the mathematical (always non-negative) sense
and packing then succeeds with that single byte; in particular 300 encodes
to 44 and -1 encodes to 255, so out-of-range inputs wrap instead of
failing. -/
theorem uchar_encode_wraps_mod256 :
    (∀ v : Int, convertVal "uchar" ((v : Int) : ℚ) = .pint (v % 256) ∧
      0 ≤ v % 256 ∧ v % 256 < 256 ∧
      structPack (create_struct_format [("uchar", "red")])
        (convertVertex [("uchar", "red")] [((v : Int) : ℚ)]) =
        some [.byte (v % 256).toNat]) ∧
    (300 : Int) % 256 = 44 ∧ (-1 : Int) % 256 = 255 ∧
    structPack (create_struct_format [("uchar", "red")])
      (convertVertex [("uchar", "red")] [((300 : Int) : ℚ)]) = some [.byte 44] ∧
    structPack (create_struct_format [("uchar", "red")])
      (convertVertex [("uchar", "red")] [((-1 : Int) : ℚ)]) = some [.byte 255] := by
  refine ⟨?_, by decide, by decide, by decide, by decide⟩
  intro v
  have h0 : (0 : Int) < 256 := by norm_num
  have h1 : 0 ≤ v % 256 := Int.emod_nonneg v (by norm_num)
  have h2 : v % 256 < 256 := Int.emod_lt_of_pos v h0
  have hcv : convertVal "uchar" ((v : Int) : ℚ) = .pint (v % 256) := by
    simp [convertVal, ratInt_intCast]
  refine ⟨hcv, h1, h2, ?_⟩
  rw [structPack_create]
  simp only [convertVertex, List.headD_cons, List.tail_cons, hcv]
  simp [fmtChars, typeChar, packGo, packOne, h1, h2]

/-- C5 counterexample: struct.pack of a float field rounds its argument to
binary32, so the claimed exact round-trip for float fields fails at the
concrete one-field record holding 0.1: encoding then decoding yields the
float32 nearest 0.1, namely 13421773 / 2^27 = 0.100000001490116119384765625,
not 0.1. -/
theorem float_field_roundtrip_counterexample :
    (structPackF32 (create_struct_format [("float", "x")])
        (convertVertex [("float", "x")] (([PValue.pfloat (1/10)]).map pvFloat))).bind
      (structUnpack (create_struct_format [("float", "x")])) =
      some [PValue.pfloat (13421773 / 134217728)] ∧
    ¬((structPackF32 (create_struct_format [("float", "x")])
        (convertVertex [("float", "x")] (([PValue.pfloat (1/10)]).map pvFloat))).bind
      (structUnpack (create_struct_format [("float", "x")])) =
      some [PValue.pfloat (1/10)]) ∧
    roundF32 (1/10) = 13421773 / 134217728 ∧
    (13421773 / 134217728 : ℚ) ≠ 1/10 := by decide

/-- C5 (amended): for every field list drawn from the supported enumeration
and every well-typed record - double fields holding numeric values, int
fields holding integers within signed 32-bit range, uchar fields holding
bytes, and float fields holding values exactly representable as finite
binary32, which is the shape of every record decoded from a file - encoding
the record with the writer conversion and struct.pack (including its
binary32 rounding of float fields) yields its canonical buffer, decoding
that buffer with struct.unpack reproduces the record exactly, and composing
the two is the identity.  Float fields whose values are not
binary32-representable are rounded, as the counterexample shows, so
exactness for them holds if and only if the value is representable. -/
theorem record_codec_roundtrip_f32 (props : List (String × String)) (r : List PValue)
    (h : wfRecordF32 props r = true) :
    structPackF32 (create_struct_format props) (convertVertex props (r.map pvFloat)) =
      some (recordCells props r) ∧
    structUnpack (create_struct_format props) (recordCells props r) = some r ∧
    (structPackF32 (create_struct_format props)
        (convertVertex props (r.map pvFloat))).bind
      (structUnpack (create_struct_format props)) = some r := by
  have hw : wfRecord props r = true := wfRecordF32_wf props r h
  have hp : structPackF32 (create_struct_format props)
      (convertVertex props (r.map pvFloat)) = some (recordCells props r) := by
    rw [structPackF32_create]
    exact packF32_record props r h
  have hu : structUnpack (create_struct_format props) (recordCells props r) = some r := by
    rw [structUnpack_create]
    exact unpack_recordCells hw
  exact ⟨hp, hu, by rw [hp]; exact hu⟩

/-- Witness for the amended C5: a record with one field of each supported
type - the float32 nearest 0.1, a dyadic double, the most negative int32
and a full-range byte - round-trips exactly through the rounding encoder. -/
theorem record_codec_roundtrip_f32_witness :
    wfRecordF32 propsR recR = true ∧
    (structPackF32 (create_struct_format propsR)
        (convertVertex propsR (recR.map pvFloat))).bind
      (structUnpack (create_struct_format propsR)) = some recR :=
  ⟨by decide, (record_codec_roundtrip_f32 propsR recR (by decide)).2.2⟩

/-- C6 (code bug): on a file whose terminator line never appears, the
readline loop of read_ply_header never terminates for any amount of fuel
(Python readline returns an empty string at end of file forever), so
neither analyze nor crop reports MalformedHeader - no such failure exists
in the code - and nothing is written; the claim says parsing terminates
with a MalformedHeader failure. -/
theorem header_without_terminator_never_terminates :
    (∀ (fuel i : Nat) (acc : List String),
      readHeaderLoop noTermFile.lines fuel i acc = none) ∧
    read_ply_header noTermFile = none ∧
    analyze_point_cloud_bounds noTermFile 10000 = .hang ∧
    ∀ (p : String) (xr yr zr : Option (ℚ × ℚ)) (cc : Option ℚ) (ib : Bool),
      crop_by_bounds p noTermFile xr yr zr cc ib = .hang := by
  have hline : ∀ i : Nat, pystrip (noTermFile.lines.getD i "") ≠ "end_header" := by
    intro i
    match i with
    | 0 => decide
    | 1 => decide
    | 2 => decide
    | 3 => decide
    | n + 4 =>
      have hd : noTermFile.lines.getD (n + 4) "" = "" :=
        List.getD_eq_default _ _ (by simp [noTermFile])
      rw [hd]
      decide
  have hloop : ∀ (fuel i : Nat) (acc : List String),
      readHeaderLoop noTermFile.lines fuel i acc = none := by
    intro fuel
    induction fuel with
    | zero => intro i acc; rfl
    | succ fuel ih =>
      intro i acc
      simp only [readHeaderLoop]
      rw [if_neg (hline i)]
      exact ih (i + 1) _
  refine ⟨hloop, hloop _ _ _, ?_, ?_⟩
  · simp [analyze_point_cloud_bounds, read_ply_header, hloop]
  · intro p xr yr zr cc ib
    simp [crop_by_bounds, analyze_point_cloud_bounds, read_ply_header, hloop]

/-- C7 (code bug): create_struct_format has no else branch, so a type tag
outside the fixed enumeration is silently skipped rather than reported:
for (float x, float y, float z, short nx) it yields the format for three
floats only and a stride of 12 that ignores the unknown field, and no
UnsupportedFieldType failure exists anywhere; the claim says layout
derivation fails before any body read. -/
theorem unknown_type_tag_silently_skipped :
    create_struct_format
        [("float", "x"), ("float", "y"), ("float", "z"), ("short", "nx")] = "<fff" ∧
    structCalcsize (create_struct_format
        [("float", "x"), ("float", "y"), ("float", "z"), ("short", "nx")]) = 12 ∧
    typeChar "short" = "" := by decide

/-- C8 (code bug): on a file declaring zero records, analyze computes
min(10000, 0) = 0 as the sample size and then evaluates 0 // 0, raising
ZeroDivisionError (modeled as the exn outcome) instead of reporting the
EmptyDataset condition (the noVertices outcome); the claim says analyze
reports EmptyDataset without raising. -/
theorem analyze_zero_count_raises :
    analyze_point_cloud_bounds zeroCountFile 10000 = .exn ∧
    AnalyzeResult.exn ≠ AnalyzeResult.noVertices := by decide

/-- C9: when the three ranges exclude every record, the crop reports the
empty-result condition - a constructor distinct from the failed-analysis
(empty dataset) one - and returns no output file, so nothing is written to
the destination. -/
theorem empty_crop_reports_empty_result
    (input_path : String) (file : PLYFile) (hls : List String)
    (props : List (String × String)) (rs : List (List PValue)) (xr yr zr : ℚ × ℚ)
    (hread : read_ply_header file = some hls)
    (hN : (parse_ply_header hls).1 = rs.length)
    (hprops : (parse_ply_header hls).2.1 = props)
    (hbody : file.body = (rs.map (recordCells props)).flatten)
    (hwf : ∀ r ∈ rs, wfRecord props r = true)
    (hdim : ∀ r ∈ rs, 3 ≤ r.length)
    (hne : rs ≠ [])
    (hnone : ∀ r ∈ rs, inBounds xr yr zr (r.map pvFloat) = false) :
    crop_by_bounds input_path file (some xr) (some yr) (some zr) none false =
      CropResult.emptyResult ∧
    CropResult.emptyResult ≠ CropResult.analyzeFailed := by
  refine ⟨?_, by decide⟩
  rw [crop_spec input_path file hls props rs xr yr zr hread hN hprops hbody hwf hdim hne]
  have hfil : rs.filter (fun r => inBounds xr yr zr (r.map pvFloat)) = [] :=
    List.filter_eq_nil_iff.2 (fun r hr => by simp [hnone r hr])
  rw [hfil]
  rfl

/-- Witness for C9: cropping the scenario file to ranges from 10 to 20 on
all axes excludes every record and reports the empty result. -/
theorem empty_crop_reports_empty_result_witness :
    (∀ r ∈ rsC, inBounds (10, 20) (10, 20) (10, 20) (r.map pvFloat) = false) ∧
    crop_by_bounds "in.ply" cFile (some (10, 20)) (some (10, 20)) (some (10, 20))
      none false = CropResult.emptyResult :=
  ⟨by decide,
   (empty_crop_reports_empty_result "in.ply" cFile cFile.lines propsC rsC
     (10, 20) (10, 20) (10, 20) (by decide) (by decide) (by decide) rfl (by decide)
     (by decide) (by decide) (by decide)).1⟩

/-- C10: crop always runs the sampling-based bounds analysis before
filtering, even when all three ranges are supplied explicitly; whenever
that analysis decodes zero records (its None return), crop fails and
returns no output file regardless of the supplied ranges or policy. -/
theorem crop_requires_successful_analysis
    (input_path : String) (file : PLYFile)
    (xr yr zr : Option (ℚ × ℚ)) (cc : Option ℚ) (ib : Bool)
    (h : analyze_point_cloud_bounds file 10000 = .noVertices) :
    crop_by_bounds input_path file xr yr zr cc ib = .analyzeFailed := by
  simp [crop_by_bounds, h]

/-- Witness for C10: a file declaring five records with an empty body makes
analyze decode zero records, and crop with fully explicit ranges fails
without producing an output. -/
theorem crop_requires_successful_analysis_witness :
    analyze_point_cloud_bounds truncatedFile 10000 = .noVertices ∧
    crop_by_bounds "in.ply" truncatedFile (some (0, 1)) (some (0, 1)) (some (0, 1))
      none false = .analyzeFailed :=
  ⟨by decide,
   crop_requires_successful_analysis "in.ply" truncatedFile (some (0, 1)) (some (0, 1))
     (some (0, 1)) none false (by decide)⟩

end CropPly
